import Mathlib

/-!
Shallow embedding of the `interruptable_function` crate.

Core library (`src/lib.rs`):
* `Status` — the two-variant step result (`Done` / `Pending`).
* `TimeoutError` — overrun duration plus optional partial result.
* `Interruptable` — the trait: `poll` (one step, mutating) and
  `partial_result` (non-mutating snapshot).  A trait object is modelled
  as a record of functions over an explicit state type `S`; mutation of
  `&mut self` becomes state passing.  A step that panics is modelled as
  `none` (abnormal termination, outside the cooperative contract).
* `Executor` — owns the wrapped state and a deadline; `Executor.run`
  models the polling loop.  Durations and instants are `Nat` (nanosecond
  ticks); the monotonic clock readings `start.elapsed()` taken at the
  k-th loop iteration are modelled by `clock k`.  The loop is given fuel
  to make it total; theorems show the fuel suffices.  For observability
  the embedded `run` also returns the final wrapped state (Rust keeps it
  inside the executor, which `run` borrows mutably) and the number of
  `poll` calls performed.

Example (`examples/sort.rs`): a selection sort implementing the trait,
embedded below as `SortState`.
-/

/-- The status of an Interruptable: `done` when finished, `pending` while
still doing work.  (Rust: `enum Status<T> { Done(T), Pending }`.) -/
inductive Status (T : Type) where
  | done (t : T)
  | pending
deriving DecidableEq, Repr

/-- Error if the deadline of an Interruptable is missed: the amount of time
by which the deadline was missed, and a partial result if one exists.
(Rust: `struct TimeoutError<P>(Duration, Option<P>)` with accessors
`late_by` and `partial_result`.) -/
structure TimeoutError (P : Type) where
  late_by : Nat
  partial_result : Option P
deriving DecidableEq, Repr

/-- The Interruptable trait: `poll` performs one step and reports status
(`none` models a panicking step), `partial_result` reads the snapshot
without mutating (`&self`, hence a function of the state alone). -/
structure Interruptable (S T : Type) where
  poll : S → Option (Status T × S)
  partial_result : S → Option T

/-- Runs an Interruptable until done or the deadline is missed.
(Rust: `struct Executor<I, T> { func: I, deadline: Duration }`.) -/
structure Executor (S T : Type) where
  func : S
  deadline : Nat
deriving DecidableEq, Repr

/-- `Executor::new(func, deadline)`. -/
def Executor.new {S T : Type} (func : S) (deadline : Nat) : Executor S T :=
  { func := func, deadline := deadline }

/-- The body of `Executor::run`: `k` is the loop-iteration index (so
`clock k` is the reading `start.elapsed()` would give at the deadline
check of iteration `k`), `fuel` bounds the number of iterations so the
function is total (`none` = fuel exhausted, or a step panicked).  The
returned triple is the Rust `Result<T, TimeoutError<T>>` together with
the wrapped state after the last executed step and the number of `poll`
calls made (instrumentation; Rust keeps the state inside `self.func`). -/
def Executor.runAux {S T : Type} (M : Interruptable S T) (d : Nat) (clock : Nat → Nat) :
    Nat → Nat → S → Option (Except (TimeoutError T) T × S × Nat)
  | 0, _, _ => none
  | fuel + 1, k, s =>
    match M.poll s with
    | none => none
    | some (Status.done t, s') => some (Except.ok t, s', k + 1)
    | some (Status.pending, s') =>
      if d ≤ clock k then
        some (Except.error ⟨clock k - d, M.partial_result s'⟩, s', k + 1)
      else
        Executor.runAux M d clock fuel (k + 1) s'

/-- `Executor::run(&mut self)`: record a start, loop from iteration 0.
Returns the result together with the executor as it stands when `run`
returns (Rust mutates `self.func` in place) and the poll count. -/
def Executor.run {S T : Type} (e : Executor S T) (M : Interruptable S T)
    (clock : Nat → Nat) (fuel : Nat) :
    Option (Except (TimeoutError T) T × Executor S T × Nat) :=
  (Executor.runAux M e.deadline clock fuel 0 e.func).map
    (fun r => (r.1, { func := r.2.1, deadline := e.deadline }, r.2.2))

/-- `Executor::partial_result(&self)`: returns the wrapped function's
partial result. -/
def Executor.partial_result {S T : Type} (e : Executor S T) (M : Interruptable S T) :
    Option T :=
  M.partial_result e.func

/-- The convenience macro `exec_interruptable!(func, duration)`, whose
expansion is literally `Executor::new(func, duration).run()`. -/
def exec_interruptable {S T : Type} (func : S) (duration : Nat) (M : Interruptable S T)
    (clock : Nat → Nat) (fuel : Nat) :
    Option (Except (TimeoutError T) T × Executor S T × Nat) :=
  (Executor.new func duration).run M clock fuel

/-- Checked duration subtraction: Rust `Duration - Duration` panics on
underflow (`none` models the panic branch). -/
def durationSub (a b : Nat) : Option Nat :=
  if b ≤ a then some (a - b) else none

/-- The iteration index at which the deadline check first fires: the least
`j ≥ k` with `d ≤ clock j`, searched for `n` further steps (total via the
search bound). -/
def firstHit (d : Nat) (clock : Nat → Nat) : Nat → Nat → Nat
  | 0, k => k
  | n + 1, k => if d ≤ clock k then k else firstHit d clock n (k + 1)

/-- A never-completing Interruptable over a counter, used to evaluate the
run loop at concrete inputs: each poll increments the counter and reports
`pending`; the snapshot is the counter value. -/
def natNext : Nat → Nat := fun s => s + 1

/-- The machine built from `natNext`. -/
def natM : Interruptable Nat Nat :=
  { poll := fun s => some (Status.pending, natNext s)
    partial_result := fun s => some s }

/-- An immediately-completing Interruptable over a counter. -/
def doneM : Interruptable Nat Nat :=
  { poll := fun s => some (Status.done s, s)
    partial_result := fun s => some s }

/-- An identity clock: the elapsed reading at iteration `k` is `k` ticks. -/
def idClock : Nat → Nat := fun k => k

/-- Rust `skip(idx).enumerate()` over the dropped suffix: pairs each
remaining element with its index in the skipped iterator, starting at `k`. -/
def enumerate : Nat → List Nat → List (Nat × Nat)
  | _, [] => []
  | k, x :: xs => (k, x) :: enumerate (k + 1) xs

/-- One comparison of Rust `Iterator::min_by_key` (which keeps the first
of equally minimal elements: the running minimum is replaced only when
the new key is strictly smaller). -/
def minFold (acc : Option (Nat × Nat)) (p : Nat × Nat) : Option (Nat × Nat) :=
  match acc with
  | none => some p
  | some q => if p.2 < q.2 then some p else some q

/-- `min_by_key(|(_, x)| *x)` over an enumerated list. -/
def min_by_key (l : List (Nat × Nat)) : Option (Nat × Nat) :=
  l.foldl minFold none

/-- Rust slice `swap(i, j)`, which panics when an index is out of bounds
(`none` models the panic). -/
def listSwap (l : List Nat) (i j : Nat) : Option (List Nat) :=
  if h : i < l.length ∧ j < l.length then
    some ((l.set i (l.get ⟨j, h.2⟩)).set j (l.get ⟨i, h.1⟩))
  else none

/-- Rust slice `is_sorted()`. -/
def isSortedL : List Nat → Bool
  | [] => true
  | [_] => true
  | x :: y :: rest => decide (x ≤ y) && isSortedL (y :: rest)

/-- The state of the example selection sort (`struct Sort` in
`examples/sort.rs`): the data being sorted and the index of the next
position to fill.  Element type `u8` is embedded as `Nat` (only order
comparisons and swaps are performed). -/
structure SortState where
  data : List Nat
  idx : Nat
deriving DecidableEq, Repr

/-- `Sort::new(data)`. -/
def SortState.new (data : List Nat) : SortState :=
  { data := data, idx := 0 }

/-- `Sort::sorting_step`: find the position of the minimum of the elements
from `idx` on (`.unwrap()` panics — `none` — when that range is empty),
swap it into position `idx`, and advance `idx`. -/
def SortState.sorting_step (s : SortState) : Option SortState :=
  match min_by_key (enumerate 0 (s.data.drop s.idx)) with
  | none => none
  | some (i, _) =>
    match listSwap s.data s.idx (s.idx + i) with
    | none => none
    | some d => some { data := d, idx := s.idx + 1 }

/-- `Sort::poll`: perform one sorting step, then report `done` with a copy
of the data if it is sorted, else `pending`. -/
def SortState.poll (s : SortState) : Option (Status (List Nat) × SortState) :=
  match SortState.sorting_step s with
  | none => none
  | some s' =>
    if isSortedL s'.data then some (Status.done s'.data, s')
    else some (Status.pending, s')

/-- `Sort::partial_result`: the data being worked on, always available. -/
def SortState.partial_result (s : SortState) : Option (List Nat) :=
  some s.data

/-- The Interruptable instance of the example sort. -/
def sortMachine : Interruptable SortState (List Nat) :=
  { poll := SortState.poll
    partial_result := SortState.partial_result }

/-- The state transition of one poll, ignoring the reported status — used
to step the contract directly, without any timing constraint. -/
def pollState (s : SortState) : Option SortState :=
  (SortState.poll s).map Prod.snd

/-- The unsorted input of the specification scenario. -/
def initialSort : SortState := SortState.new [5, 3, 4, 1, 2]

/-- A clock under which every step costs one tick: the elapsed reading at
iteration `k` is `k + 1`. -/
def stepClock : Nat → Nat := fun k => k + 1

/-- Claim C1: if a poll returns `done`, `run` returns success with that
output immediately — for every deadline and every clock, so regardless of
how much time has elapsed; the deadline is never compared before a step
or after a completed step. -/
theorem C1_completed_immediate {S T : Type} (M : Interruptable S T) (d : Nat)
    (clock : Nat → Nat) (fuel k : Nat) (s s' : S) (t : T)
    (h : M.poll s = some (Status.done t, s')) :
    Executor.runAux M d clock (fuel + 1) k s = some (Except.ok t, s', k + 1) := by
  simp [Executor.runAux, h]

/-- Witness for C1 at the immediately-completing machine. -/
theorem C1_completed_immediate_witness :
    Executor.runAux doneM 0 idClock 1 0 7 = some (Except.ok 7, 7, 1) :=
  C1_completed_immediate doneM 0 idClock 0 0 7 7 7 rfl

/-- Claim C2: at a loop iteration whose step returns `pending` and whose
elapsed reading is at least the budget, `run` returns a timeout whose
overrun is elapsed minus budget and whose partial result is the snapshot
taken from the state immediately after that step. -/
theorem C2_timeout_outcome {S T : Type} (M : Interruptable S T) (d : Nat)
    (clock : Nat → Nat) (fuel k : Nat) (s s' : S)
    (h : M.poll s = some (Status.pending, s')) (hk : d ≤ clock k) :
    Executor.runAux M d clock (fuel + 1) k s =
      some (Except.error ⟨clock k - d, M.partial_result s'⟩, s', k + 1) := by
  simp [Executor.runAux, h, hk]

/-- Witness for C2 at the never-completing counter machine. -/
theorem C2_timeout_outcome_witness :
    Executor.runAux natM 3 idClock 1 5 0 =
      some (Except.error ⟨2, some 1⟩, 1, 6) :=
  C2_timeout_outcome natM 3 idClock 0 5 0 1 rfl (by decide)

/-- Claim C4: with budget zero, the deadline check happens only after a
step, so one step is always performed; if that first step is `pending`
(as for any contract needing at least two steps), `run` returns the
timeout right after it, with poll count exactly 1 and the partial result
taken from the state after that single step. -/
theorem C4_zero_budget_one_step {S T : Type} (M : Interruptable S T)
    (clock : Nat → Nat) (fuel : Nat) (f s' : S)
    (h : M.poll f = some (Status.pending, s')) :
    (Executor.new f 0).run M clock (fuel + 1) =
      some (Except.error ⟨clock 0, M.partial_result s'⟩,
            { func := s', deadline := 0 }, 1) := by
  simp [Executor.run, Executor.new, Executor.runAux, h, Nat.zero_le]

/-- Witness for C4: the counter machine needs more than one step, and with
budget zero exactly one step runs before the timeout is declared. -/
theorem C4_zero_budget_one_step_witness :
    (Executor.new (0 : Nat) 0).run natM idClock 3 =
      some (Except.error ⟨idClock 0, natM.partial_result 1⟩,
            { func := 1, deadline := 0 }, 1) :=
  C4_zero_budget_one_step natM idClock 2 0 1 rfl

/-- Claim C6: the convenience invocation is definitionally the expansion
construct-then-run: same result, same final state, same poll count, for
every machine, input, duration, clock and fuel — no hidden retries,
defaults or extra effects. -/
theorem C6_macro_equiv {S T : Type} (M : Interruptable S T) (func : S)
    (duration : Nat) (clock : Nat → Nat) (fuel : Nat) :
    exec_interruptable func duration M clock fuel =
      (Executor.new func duration).run M clock fuel :=
  rfl

/-- Claim C9: the sort scenario.  With one tick per step and budget 5 the
run completes with the sorted output; with budget 2 it times out after
two polls with partial output [1, 2, 4, 5, 3]; and that partial output
is exactly the state reached by stepping the contract twice directly,
without any timing constraint. -/
theorem C9_sort_scenarios :
    ((Executor.new initialSort 5).run sortMachine stepClock 10 =
      some (Except.ok [1, 2, 3, 4, 5],
            { func := { data := [1, 2, 3, 4, 5], idx := 4 }, deadline := 5 }, 4)) ∧
    ((Executor.new initialSort 2).run sortMachine stepClock 10 =
      some (Except.error ⟨0, some [1, 2, 4, 5, 3]⟩,
            { func := { data := [1, 2, 4, 5, 3], idx := 2 }, deadline := 2 }, 2)) ∧
    ((pollState initialSort).bind pollState =
      some { data := [1, 2, 4, 5, 3], idx := 2 }) :=
  ⟨rfl, rfl, rfl⟩

/-- Helper: under a machine that always reports `pending` with transition
`next`, the loop started at iteration `k` with fuel `n + 1` returns the
timeout at the first iteration whose clock reading meets the deadline,
carrying the snapshot of the state reached by that many steps. -/
theorem runAux_all_pending {S T : Type} (M : Interruptable S T) (next : S → S)
    (d : Nat) (clock : Nat → Nat)
    (hp : ∀ x, M.poll x = some (Status.pending, next x)) :
    ∀ (n k : Nat) (s : S), d ≤ clock (k + n) →
      Executor.runAux M d clock (n + 1) k s =
        some (Except.error ⟨clock (firstHit d clock n k) - d,
                M.partial_result (next^[firstHit d clock n k - k + 1] s)⟩,
              next^[firstHit d clock n k - k + 1] s, firstHit d clock n k + 1) ∧
      d ≤ clock (firstHit d clock n k) ∧ k ≤ firstHit d clock n k ∧
      firstHit d clock n k ≤ k + n := by
  intro n
  induction n with
  | zero =>
    intro k s hk
    have hk' : d ≤ clock k := by rw [Nat.add_zero] at hk; exact hk
    refine ⟨?_, hk', Nat.le_refl k, Nat.le_refl k⟩
    simp [Executor.runAux, hp s, firstHit, hk', Nat.sub_self]
  | succ m ih =>
    intro k s hk
    by_cases h0 : d ≤ clock k
    · refine ⟨?_, by rw [firstHit, if_pos h0]; exact h0, by simp [firstHit, h0],
        by simp [firstHit, h0]⟩
      simp [Executor.runAux, hp s, firstHit, h0, Nat.sub_self]
    · have hk1 : d ≤ clock (k + 1 + m) := by
        have e : k + 1 + m = k + (m + 1) := by omega
        rw [e]; exact hk
      obtain ⟨h1, h2, h3, h4⟩ := ih (k + 1) (next s)   hk1
      have hfh : firstHit d clock (m + 1) k = firstHit d clock m (k + 1) := by
        simp [firstHit, h0]
      have hstep : Executor.runAux M d clock (m + 1 + 1) k s =
          Executor.runAux M d clock (m + 1) (k + 1) (next s) := by
        simp [Executor.runAux, hp s, h0]
      have hit : next^[firstHit d clock m (k + 1) - (k + 1) + 1] (next s) =
          next^[firstHit d clock m (k + 1) - k + 1] s := by
        have e : firstHit d clock m (k + 1) - k + 1 =
            (firstHit d clock m (k + 1) - (k + 1) + 1) + 1 := by omega
        rw [e]
        exact (Function.iterate_succ_apply next
          (firstHit d clock m (k + 1) - (k + 1) + 1) s).symm
      refine ⟨?_, ?_, ?_, ?_⟩
      · rw [hfh, hstep, h1, hit]
      · rw [hfh]; exact h2
      · rw [hfh]; omega
      · rw [hfh]; omega

/-- Claim C3: a contract whose steps always report `pending` makes the run
terminate with a timeout as soon as the clock reaches the budget: with
fuel `n + 1` where iteration `n` is late enough, the run returns a
timeout (overrun is the guarded, hence non-negative, difference) whose
partial output is the snapshot after the last executed step. -/
theorem C3_never_done_times_out {S T : Type} (M : Interruptable S T) (next : S → S)
    (d : Nat) (clock : Nat → Nat) (n : Nat) (s : S)
    (hp : ∀ x, M.poll x = some (Status.pending, next x)) (hn : d ≤ clock n) :
    Executor.runAux M d clock (n + 1) 0 s =
      some (Except.error ⟨clock (firstHit d clock n 0) - d,
              M.partial_result (next^[firstHit d clock n 0 + 1] s)⟩,
            next^[firstHit d clock n 0 + 1] s, firstHit d clock n 0 + 1) ∧
    d ≤ clock (firstHit d clock n 0) ∧ firstHit d clock n 0 ≤ n := by
  have h := runAux_all_pending M next d clock hp n 0 s (by rw [Nat.zero_add]; exact hn)
  obtain ⟨h1, h2, _, h4⟩ := h
  rw [Nat.sub_zero] at h1
  rw [Nat.zero_add] at h4
  exact ⟨h1, h2, h4⟩

/-- Witness for C3 at the counter machine with the identity clock and
budget 3: the timeout fires at iteration 3 after four steps. -/
theorem C3_never_done_times_out_witness :
    (Executor.runAux natM 3 idClock 4 0 0 =
      some (Except.error ⟨idClock (firstHit 3 idClock 3 0) - 3,
              natM.partial_result (natNext^[firstHit 3 idClock 3 0 + 1] 0)⟩,
            natNext^[firstHit 3 idClock 3 0 + 1] 0, firstHit 3 idClock 3 0 + 1)) ∧
    3 ≤ idClock (firstHit 3 idClock 3 0) ∧ firstHit 3 idClock 3 0 ≤ 3 :=
  C3_never_done_times_out natM natNext 3 idClock 3 0 (fun x => rfl) (by decide)

/-- Helper: a run that returns a timeout performed its overrun subtraction
at some iteration `j` at which the deadline guard held. -/
theorem runAux_error_guard {S T : Type} (M : Interruptable S T) (d : Nat)
    (clock : Nat → Nat) :
    ∀ (fuel k : Nat) (s : S) (err : TimeoutError T) (s' : S) (n : Nat),
      Executor.runAux M d clock fuel k s = some (Except.error err, s', n) →
      ∃ j, k ≤ j ∧ d ≤ clock j ∧ err.late_by = clock j - d := by
  intro fuel
  induction fuel with
  | zero =>
    intro k s err s' n h
    simp [Executor.runAux] at h
  | succ m ih =>
    intro k s err s' n h
    cases hp : M.poll s with
    | none => simp [Executor.runAux, hp] at h
    | some r =>
      obtain ⟨st, s1⟩ := r
      cases st with
      | done t => simp [Executor.runAux, hp] at h
      | pending =>
        by_cases hk : d ≤ clock k
        · simp only [Executor.runAux, hp] at h
          rw [if_pos hk] at h
          simp only [Option.some.injEq, Prod.mk.injEq, Except.error.injEq] at h
          obtain ⟨he, _, _⟩ := h
          exact ⟨k, Nat.le_refl k, hk, by rw [← he]⟩
        · simp only [Executor.runAux, hp] at h
          rw [if_neg hk] at h
          obtain ⟨j, hj1, hj2, hj3⟩ := ih (k + 1) s1 err s' n h
          exact ⟨j, by omega, hj2, hj3⟩

/-- Claim C5: whenever a run returns a timeout, the overrun was produced by
the subtraction elapsed minus budget performed under the guard elapsed at
least budget, so the checked (panicking) duration subtraction succeeds
and the overrun, read as an integer difference, is non-negative. -/
theorem C5_overrun_nonneg {S T : Type} (M : Interruptable S T) (d : Nat)
    (clock : Nat → Nat) (fuel k : Nat) (s : S) (err : TimeoutError T) (s' : S) (n : Nat)
    (h : Executor.runAux M d clock fuel k s = some (Except.error err, s', n)) :
    ∃ j, k ≤ j ∧ d ≤ clock j ∧ err.late_by = clock j - d ∧
      durationSub (clock j) d = some err.late_by ∧
      (err.late_by : Int) = (clock j : Int) - (d : Int) ∧
      (0 : Int) ≤ (clock j : Int) - (d : Int) := by
  obtain ⟨j, h1, h2, h3⟩ := runAux_error_guard M d clock fuel k s err s' n h
  refine ⟨j, h1, h2, h3, ?_, ?_, ?_⟩
  · simp [durationSub, h2, h3]
  · rw [h3, Nat.cast_sub h2]
  · have hc : (d : Int) ≤ (clock j : Int) := by exact_mod_cast h2
    omega

/-- Witness for C5 at the counter machine: the concrete timeout run and the
guarded, non-negative overrun it yields. -/
theorem C5_overrun_nonneg_witness :
    (Executor.runAux natM 3 idClock 5 0 0 = some (Except.error ⟨0, some 4⟩, 4, 4)) ∧
    (∃ j, 0 ≤ j ∧ 3 ≤ idClock j ∧
      (⟨0, some 4⟩ : TimeoutError Nat).late_by = idClock j - 3 ∧
      durationSub (idClock j) 3 = some (⟨0, some 4⟩ : TimeoutError Nat).late_by ∧
      ((⟨0, some 4⟩ : TimeoutError Nat).late_by : Int) = (idClock j : Int) - (3 : Int) ∧
      (0 : Int) ≤ (idClock j : Int) - (3 : Int)) :=
  ⟨rfl, C5_overrun_nonneg natM 3 idClock 5 0 0 ⟨0, some 4⟩ 4 4 rfl⟩

/-- Counterexample to claim C7: the claim says that when run returns, the
contract is discarded and (on timeout) only the snapshot inside the
timeout outcome survives.  But Rust `run` takes `&mut self`: after a
timed-out run the executor still holds the contract, mutated by the
executed steps (counter 4, not the initial 0), and that surviving state
is observable through the public `Executor::partial_result` accessor. -/
theorem C7_counterexample :
    ((Executor.new (0 : Nat) 3).run natM idClock 5 =
      some (Except.error ⟨0, some 4⟩, { func := 4, deadline := 3 }, 4)) ∧
    (({ func := 4, deadline := 3 } : Executor Nat Nat).partial_result natM = some 4) ∧
    (({ func := 4, deadline := 3 } : Executor Nat Nat).func ≠
      (Executor.new (0 : Nat) 3 : Executor Nat Nat).func) :=
  ⟨rfl, rfl, by decide⟩

/-- Claim C7 as amended: ownership of the contract is transferred to the
Executor at construction; run borrows the executor mutably, so when run
returns the contract state is not discarded — it survives inside the
executor, with the deadline unchanged, and remains accessible through the
partial_result accessor (in addition to the snapshot carried by the
timeout outcome). -/
theorem C7_ownership_retained {S T : Type} (M : Interruptable S T) (f : S) (d : Nat)
    (clock : Nat → Nat) (fuel : Nat) (r : Except (TimeoutError T) T)
    (e' : Executor S T) (n : Nat) :
    ((Executor.new f d : Executor S T).func = f) ∧
    ((Executor.new f d).run M clock fuel = some (r, e', n) →
      e'.deadline = d ∧ e'.partial_result M = M.partial_result e'.func) := by
  refine ⟨rfl, fun h => ?_⟩
  unfold Executor.run at h
  obtain ⟨a, -, ha⟩ := Option.map_eq_some'.mp h
  injection ha with ha1 ha2
  injection ha2 with ha2 ha3
  subst ha2
  exact ⟨rfl, rfl⟩

/-- Witness for the amended C7 at the concrete timed-out counter run. -/
theorem C7_ownership_retained_witness :
    ((Executor.new (0 : Nat) 3 : Executor Nat Nat).func = 0) ∧
    (({ func := 4, deadline := 3 } : Executor Nat Nat).deadline = 3 ∧
      ({ func := 4, deadline := 3 } : Executor Nat Nat).partial_result natM =
        natM.partial_result ({ func := 4, deadline := 3 } : Executor Nat Nat).func) :=
  ⟨(C7_ownership_retained natM 0 3 idClock 5 (Except.error ⟨0, some 4⟩)
      { func := 4, deadline := 3 } 4).1,
   (C7_ownership_retained natM 0 3 idClock 5 (Except.error ⟨0, some 4⟩)
      { func := 4, deadline := 3 } 4).2 rfl⟩

/-- Claim C8: the partial_result accessor of the executor returns the
wrapped contract's partial result, on a freshly constructed executor
(before any step) as well as on any executor state, including the one
left behind by a completed run; the snapshot itself is a function of the
state alone (Rust takes it through a shared borrow), and the example
sort's snapshot is total — defined at every state, returning the data
without touching it. -/
theorem C8_partial_result_accessor {S T : Type} (M : Interruptable S T) (f : S) (d : Nat)
    (clock : Nat → Nat) (fuel : Nat) (r : Except (TimeoutError T) T)
    (e' : Executor S T) (n : Nat) :
    ((Executor.new f d : Executor S T).partial_result M = M.partial_result f) ∧
    (∀ e : Executor S T, e.partial_result M = M.partial_result e.func) ∧
    ((Executor.new f d).run M clock fuel = some (r, e', n) →
      e'.partial_result M = M.partial_result e'.func) ∧
    (∀ s : SortState, sortMachine.partial_result s = some s.data) :=
  ⟨rfl, fun _ => rfl, fun _ => rfl, fun _ => rfl⟩

/-- Witness for C8 at the concrete timed-out counter run. -/
theorem C8_partial_result_accessor_witness :
    ({ func := 4, deadline := 3 } : Executor Nat Nat).partial_result natM =
      natM.partial_result ({ func := 4, deadline := 3 } : Executor Nat Nat).func :=
  (C8_partial_result_accessor natM 0 3 idClock 5 (Except.error ⟨0, some 4⟩)
    { func := 4, deadline := 3 } 4).2.2.1 rfl

/-- Helper: folding the min step over an enumeration that starts at `k`,
from a running candidate `q`, yields a candidate that is either `q` or one
of the enumerated pairs, whose index then lies in `[k, k + length)`. -/
theorem foldl_minFold_some : ∀ (l : List Nat) (k : Nat) (q : Nat × Nat),
    ∃ p, List.foldl minFold (some q) (enumerate k l) = some p ∧
      (p = q ∨ (k ≤ p.1 ∧ p.1 < k + l.length)) := by
  intro l
  induction l with
  | nil => exact fun k q => ⟨q, rfl, Or.inl rfl⟩
  | cons x xs ih =>
    intro k q
    by_cases hx : x < q.2
    · obtain ⟨p, hp, hb⟩ := ih (k + 1) (k, x)
      refine ⟨p, ?_, Or.inr ?_⟩
      · simpa [enumerate, minFold, hx] using hp
      · rcases hb with rfl | ⟨h1, h2⟩
        · simp
        · simp only [List.length_cons]
          omega
    · obtain ⟨p, hp, hb⟩ := ih (k + 1) q
      refine ⟨p, ?_, ?_⟩
      · simpa [enumerate, minFold, hx] using hp
      · rcases hb with rfl | ⟨h1, h2⟩
        · exact Or.inl rfl
        · refine Or.inr ⟨by omega, ?_⟩
          simp only [List.length_cons]
          omega

/-- Helper: the minimum search over the enumeration of a non-empty list
returns an index within the list. -/
theorem min_by_key_enumerate_bound (l : List Nat) (k : Nat) (hl : l ≠ []) :
    ∃ p, min_by_key (enumerate k l) = some p ∧ k ≤ p.1 ∧ p.1 < k + l.length := by
  cases l with
  | nil => exact absurd rfl hl
  | cons x xs =>
    obtain ⟨p, hp, hb⟩ := foldl_minFold_some xs (k + 1) (k, x)
    refine ⟨p, ?_, ?_⟩
    · simpa [min_by_key, enumerate, minFold] using hp
    · rcases hb with rfl | ⟨h1, h2⟩
      · refine ⟨Nat.le_refl k, ?_⟩
        simp only [List.length_cons]
        omega
      · refine ⟨by omega, ?_⟩
        simp only [List.length_cons]
        omega

/-- Helper: one sorting step succeeds whenever the fill index is still
inside the data: the minimum of the non-empty remainder exists and its
absolute position is in bounds, so the unwrap and the swap both succeed. -/
theorem sorting_step_isSome (s : SortState) (h : s.idx < s.data.length) :
    (SortState.sorting_step s).isSome := by
  have hne : s.data.drop s.idx ≠ [] := by
    intro he
    have hl := congrArg List.length he
    rw [List.length_drop] at hl
    simp at hl
    omega
  obtain ⟨⟨i, v⟩, hp, -, hb2⟩ := min_by_key_enumerate_bound (s.data.drop s.idx) 0 hne
  rw [List.length_drop] at hb2
  have hsw : s.idx < s.data.length ∧ s.idx + i < s.data.length := ⟨h, by omega⟩
  have hL : listSwap s.data s.idx (s.idx + i) =
      some ((s.data.set s.idx (s.data.get ⟨s.idx + i, hsw.2⟩)).set (s.idx + i)
        (s.data.get ⟨s.idx, hsw.1⟩)) := by
    unfold listSwap
    rw [dif_pos hsw]
  unfold SortState.sorting_step
  simp only [hp, hL]
  rfl

/-- Claim C10: polling the example sort on an empty slice panics (the
unwrap of the minimum of the empty remainder), and the index staying
strictly inside the data is a sufficient precondition for a poll to be
panic-free. -/
theorem C10_empty_poll_panics :
    (SortState.poll { data := [], idx := 0 } = none) ∧
    ∀ s : SortState, s.idx < s.data.length → (SortState.poll s).isSome := by
  refine ⟨rfl, fun s h => ?_⟩
  obtain ⟨s', hs'⟩ := Option.isSome_iff_exists.mp (sorting_step_isSome s h)
  unfold SortState.poll
  simp only [hs']
  cases hs : isSortedL s'.data <;> simp [hs]

/-- Witness for C10: a poll on a two-element unsorted slice with index 0
is panic-free. -/
theorem C10_empty_poll_panics_witness :
    (SortState.poll { data := [2, 1], idx := 0 }).isSome :=
  C10_empty_poll_panics.2 { data := [2, 1], idx := 0 } (by decide)
